import Mathlib

/-!
Shallow embedding of `generate.py` from chreke/bloggen, together with proofs about the
claims of its specification.

Conventions of the embedding:
* Python exceptions are modelled with `Except BuildError` / explicit error components;
  `KeyError(k)`, `IndexError` and `ValueError` have their own constructors.
* The external collaborators that the spec itself declares out of scope (the Markdown
  converter, the Jinja template engine, the TOML parser, `urllib.parse.urljoin`) are
  modelled at their boundary: a post source is taken after Markdown conversion as a
  `RawPost` (extracted metadata plus body HTML), the loaded TOML config is taken as a
  key/value list, and template rendering is an opaque deterministic capability whose
  result is identified with the exact data the code passes to `template.render`.
* Filesystem effects are reified as a list of `FsOp` values in program order, so that
  theorems can talk about which directories/files a build touches and in which order.
-/

namespace Bloggen

/-- Python exceptions raised by the program: `KeyError` (missing dict key, carrying the
key), `IndexError` (out-of-range indexing such as `posts[0]` on an empty list) and
`ValueError` (raised by `datetime.fromisoformat` on unparseable input). -/
inductive BuildError where
  | keyError (key : String)
  | indexError
  | valueError (msg : String)
  deriving DecidableEq

/-- The `Post` dataclass of `generate.py` (lines 31-39). -/
structure Post where
  date : String
  description : Option String
  filename : String
  html : String
  tags : List String
  title : String
  url : String
  deriving DecidableEq

/-- One post source file after Markdown conversion: the file stem, the extracted
front-matter metadata (`md.Meta`: keys mapped to lists of value lines) and the body
HTML. The Markdown conversion algorithm itself is an external capability excluded by
the spec, so `parse_markdown` is embedded as a function of these converted sources,
listed in directory-discovery order. -/
structure RawPost where
  stem : String
  meta : List (String × List String)
  html : String
  deriving DecidableEq

/-- The loaded TOML configuration (`toml.load` is an external parser): a key/value
document; only string-valued fields are accessed by the program. -/
abbrev Config := List (String × String)

/-- Python `config[key]`: the value, or a `KeyError` naming the key. -/
def cfgGet (config : Config) (key : String) : Except BuildError String :=
  match config.lookup key with
  | some v => .ok v
  | none => .error (.keyError key)

/-- Python `md.Meta` lookup with `in` / `.get`: first binding of the key. -/
def metaFind (meta : List (String × List String)) (key : String) : Option (List String) :=
  meta.lookup key

/-- The whitespace characters removed by Python `str.strip()` (ASCII subset). -/
def isPySpace (c : Char) : Bool :=
  c = ' ' || c = '\t' || c = '\n' || c = '\r' || c = '\x0b' || c = '\x0c'

/-- Python `str.strip()`: drop leading and trailing whitespace. -/
def pyStrip (s : String) : String :=
  ⟨((s.data.dropWhile isPySpace).reverse.dropWhile isPySpace).reverse⟩

/-! ### Model of `datetime.fromisoformat` / `datetime.isoformat`

`to_rfc_3339` (lines 144-146) delegates to CPython's `datetime`. The model below
covers the subset of its input grammar this program meets:
`YYYY-MM-DD[{T,space}HH[:MM[:SS[.f{1..6}]]]][Z|±HH:MM]`, with calendar validation,
and re-emits `isoformat("T")` exactly as CPython does (seconds always printed,
microseconds printed as 6 digits only when non-zero, an aware datetime followed by its
`±HH:MM` UTC offset). -/

/-- A `datetime.datetime` value: calendar fields plus an optional fixed UTC offset in
minutes (`tzOffset = none` models a naive datetime). -/
structure PyDatetime where
  year : Nat
  month : Nat
  day : Nat
  hour : Nat
  minute : Nat
  second : Nat
  microsecond : Nat
  tzOffset : Option Int
  deriving DecidableEq

/-- Read exactly `n` decimal digits, most significant first, on top of `acc`. -/
def readFixed : Nat → Nat → List Char → Option (Nat × List Char)
  | 0, acc, cs => some (acc, cs)
  | n + 1, acc, c :: cs =>
      if c.isDigit then readFixed n (acc * 10 + (c.toNat - 48)) cs else none
  | _ + 1, _, [] => none

/-- Consume one expected character. -/
def expectChar (c : Char) : List Char → Option (List Char)
  | c' :: cs => if c' = c then some cs else none
  | [] => none

/-- Read a fractional-second field of 1 to 6 digits, scaled to microseconds. -/
def readFrac (cs : List Char) : Option (Nat × List Char) :=
  let ds := cs.takeWhile Char.isDigit
  if ds.length = 0 ∨ 6 < ds.length then none
  else some ((ds.foldl (fun a c => a * 10 + (c.toNat - 48)) 0) * 10 ^ (6 - ds.length),
             cs.dropWhile Char.isDigit)

/-- Read the time-of-day part `HH[:MM[:SS[.frac]]]`. -/
def readTime (cs : List Char) : Option (Nat × Nat × Nat × Nat × List Char) :=
  match readFixed 2 0 cs with
  | none => none
  | some (h, cs₁) =>
    match cs₁ with
    | ':' :: cs₂ =>
      match readFixed 2 0 cs₂ with
      | none => none
      | some (mi, cs₃) =>
        match cs₃ with
        | ':' :: cs₄ =>
          match readFixed 2 0 cs₄ with
          | none => none
          | some (se, cs₅) =>
            match cs₅ with
            | '.' :: cs₆ =>
              match readFrac cs₆ with
              | none => none
              | some (us, cs₇) => some (h, mi, se, us, cs₇)
            | _ => some (h, mi, se, 0, cs₅)
        | _ => some (h, mi, 0, 0, cs₃)
    | _ => some (h, 0, 0, 0, cs₁)

/-- Read the minutes of a `±HH:MM` offset (sign handled by the caller); the offset must
end the input. -/
def readOffsetMinutes (cs : List Char) : Option Nat :=
  match readFixed 2 0 cs with
  | none => none
  | some (hh, cs₁) =>
    match cs₁ with
    | ':' :: cs₂ =>
      match readFixed 2 0 cs₂ with
      | none => none
      | some (mm, cs₃) =>
        if hh < 24 ∧ mm < 60 ∧ cs₃ = [] then some (hh * 60 + mm) else none
    | _ => none

/-- Read the trailing timezone designator: absent (naive), `Z`/`z` (UTC) or `±HH:MM`. -/
def readTz : List Char → Option (Option Int)
  | [] => some none
  | ['Z'] => some (some 0)
  | ['z'] => some (some 0)
  | '+' :: cs => (readOffsetMinutes cs).map (fun m => some (m : Int))
  | '-' :: cs => (readOffsetMinutes cs).map (fun m => some (-(m : Int)))
  | _ => none

/-- Gregorian leap-year rule, as in `datetime`. -/
def isLeapYear (y : Nat) : Bool :=
  y % 4 == 0 && (y % 100 != 0 || y % 400 == 0)

/-- Days in a month, as validated by `datetime`. -/
def daysInMonth (y m : Nat) : Nat :=
  if m = 2 then (if isLeapYear y then 29 else 28)
  else if m = 4 ∨ m = 6 ∨ m = 9 ∨ m = 11 then 30
  else 31

/-- Model of `datetime.datetime.fromisoformat` on the grammar subset described above;
`none` models the `ValueError` CPython raises on invalid input. -/
def pyFromIso (s : String) : Option PyDatetime :=
  (readFixed 4 0 s.data).bind fun yc =>
  (expectChar '-' yc.2).bind fun cs₂ =>
  (readFixed 2 0 cs₂).bind fun moc =>
  (expectChar '-' moc.2).bind fun cs₄ =>
  (readFixed 2 0 cs₄).bind fun dc =>
  (match dc.2 with
   | [] => some (0, 0, 0, 0, ([] : List Char))
   | c :: rest => if c = 'T' ∨ c = ' ' then readTime rest else none).bind fun tm =>
  (readTz tm.2.2.2.2).bind fun tz =>
  if 1 ≤ yc.1 ∧ 1 ≤ moc.1 ∧ moc.1 ≤ 12 ∧ 1 ≤ dc.1 ∧ dc.1 ≤ daysInMonth yc.1 moc.1 ∧
      tm.1 ≤ 23 ∧ tm.2.1 ≤ 59 ∧ tm.2.2.1 ≤ 59 then
    some ⟨yc.1, moc.1, dc.1, tm.1, tm.2.1, tm.2.2.1, tm.2.2.2.1, tz⟩
  else none

/-- Decimal digits, most significant first, with structural fuel (first argument);
`fuel ≥ n` always suffices. -/
def natToDigitsAux : Nat → Nat → List Char
  | 0, _ => []
  | fuel + 1, n =>
    if n = 0 then []
    else natToDigitsAux fuel (n / 10) ++ [Char.ofNat (48 + n % 10)]

/-- Decimal digits of `n`, most significant first (empty for `0`). -/
def natToDigits (n : Nat) : List Char := natToDigitsAux n n

/-- Zero-pad `n` to width `w`, as Python `%0*d` formatting does. -/
def padNum (w n : Nat) : List Char :=
  List.replicate (w - (natToDigits n).length) '0' ++ natToDigits n

/-- Character data of `datetime.isoformat("T")`. -/
def pyIsoformatData (dt : PyDatetime) : List Char :=
  padNum 4 dt.year ++ '-' :: padNum 2 dt.month ++ '-' :: padNum 2 dt.day ++
  'T' :: padNum 2 dt.hour ++ ':' :: padNum 2 dt.minute ++ ':' :: padNum 2 dt.second ++
  (if dt.microsecond = 0 then [] else '.' :: padNum 6 dt.microsecond) ++
  (match dt.tzOffset with
   | none => []
   | some off =>
     (if off < 0 then '-' else '+') ::
       (padNum 2 (off.natAbs / 60) ++ ':' :: padNum 2 (off.natAbs % 60)))

/-- Model of `datetime.isoformat("T")`. -/
def pyIsoformat (dt : PyDatetime) : String := ⟨pyIsoformatData dt⟩

/-- Lines 144-146: `to_rfc_3339` parses the string with `fromisoformat` and appends a
literal `"Z"` to its `isoformat("T")` rendering; no timezone conversion is performed. -/
def to_rfc_3339 (iso_datetime : String) : Except BuildError String :=
  match pyFromIso iso_datetime with
  | some dt => .ok (pyIsoformat dt ++ "Z")
  | none => .error (.valueError iso_datetime)

/-- Lines 149-150: `to_canonical_url`. `url[-1]` raises `IndexError` on the empty
string; otherwise the conditional expression yields `url + "/"` when the last character
is not a slash and the EMPTY STRING (not `url`) when it is. -/
def to_canonical_url (url : String) : Except BuildError String :=
  match url.data.getLast? with
  | none => .error .indexError
  | some c => .ok (if c ≠ '/' then url ++ "/" else "")

/-- Modelled from the spec: `urllib.parse.urljoin` is an external capability ("a
computed feed URL (`join(baseUrl, "feed.rss")`)"); for the relative reference this
program joins, it replaces everything after the last slash of the base. Faithful for
the slash-terminated absolute base URLs of the spec's scenarios; no claim depends on
its value. -/
def urljoin (base url : String) : String :=
  ⟨(base.data.reverse.dropWhile (fun c => c ≠ '/')).reverse ++ url.data⟩

/-- Lines 102-103: the `feed.rss` URL; raises `KeyError` when `url` is missing. -/
def feed_url (config : Config) : Except BuildError String :=
  (cfgGet config "url").map (fun u => urljoin u "feed.rss")

/-- Data handed to the `index.html` template, in `template.render` keyword order. -/
structure IndexData where
  feed_url : String
  title : String
  description : String
  posts : List Post
  deriving DecidableEq

/-- Data handed to the `feed.rss` template, in `template.render` keyword order. -/
structure FeedData where
  config : Config
  posts : List Post
  self_url : String
  last_pub_date : String
  deriving DecidableEq

/-- Modelled from the spec: the Jinja templates are repository files not under `src/`
and "the HTML/XML templating engine" is an opaque deterministic capability
("template name + data → rendered text"), so a rendered document is identified with
the template used and the exact data passed to `template.render`. -/
inductive Rendered where
  | postDoc (post : Post) (post_html : String)
  | indexDoc (data : IndexData)
  | feedDoc (data : FeedData)
  deriving DecidableEq

/-- A filesystem effect, in program order: `Path.mkdir`, `open(...).write`, or
`shutil.copytree`. -/
inductive FsOp where
  | mkdir (path : String)
  | write (path : String) (content : Rendered)
  | copyTree (src dest : String)
  deriving DecidableEq

/-- The path an operation touches (the destination, for a copy). -/
def FsOp.path : FsOp → String
  | .mkdir p => p
  | .write p _ => p
  | .copyTree _ d => d

/-- Whether an operation writes a file. -/
def FsOp.isWrite : FsOp → Bool
  | .write _ _ => true
  | _ => false

/-- The file-writing operations of a trace. -/
def writesOf (ops : List FsOp) : List FsOp := ops.filter FsOp.isWrite

/-- `SITE_DIR` relative to `BASE_DIR` (line 16): the output root. -/
def SITE_DIR : String := "site"

/-- `POSTS_DIR` relative to `BASE_DIR` (line 17): the post-source directory. -/
def POSTS_DIR : String := "posts"

/-- `TAGS_DIR` relative to `BASE_DIR` (line 18): where tag pages are written; note
this is a SIBLING of `SITE_DIR`, not inside it. -/
def TAGS_DIR : String := "tags"

/-- Line 20. -/
def FEED_FILENAME : String := "feed.rss"

/-- Lines 46-55: `generate_posts` writes one `post.html` rendering per post to
`site/<filename>`, passing the post and its raw body HTML (`markupsafe.Markup`). -/
def generate_posts (posts : List Post) : List FsOp :=
  posts.map (fun post => .write (SITE_DIR ++ "/" ++ post.filename) (.postDoc post post.html))

/-- Lines 58-68: `generate_index_page`. Keyword arguments are evaluated in source
order, so a missing `url` raises before a missing `title`, which raises before a
missing `description`. -/
def generate_index_page (config : Config) (posts : List Post) : Except BuildError FsOp := do
  let fu ← feed_url config
  let t ← cfgGet config "title"
  let d ← cfgGet config "description"
  pure (.write (SITE_DIR ++ "/index.html") (.indexDoc ⟨fu, t, d, posts⟩))

/-- Lines 71-78 data: the feed template's arguments. `self_url` is evaluated before
`last_pub_date = posts[0].date`, which raises `IndexError` on an empty post list. -/
def feedData (config : Config) (posts : List Post) : Except BuildError FeedData := do
  let su ← feed_url config
  let lp ← match posts with
           | [] => Except.error BuildError.indexError
           | p :: _ => Except.ok p.date
  pure ⟨config, posts, su, lp⟩

/-- Lines 71-81: `generate_feed` renders the feed template and writes `site/feed.rss`. -/
def generate_feed (config : Config) (posts : List Post) : Except BuildError FsOp :=
  (feedData config posts).map (fun d => .write (SITE_DIR ++ "/" ++ FEED_FILENAME) (.feedDoc d))

/-- Lines 85-88: the `defaultdict(list)` of tag groups. Appending to `d[tag]` either
extends an existing binding or, for a new tag, adds it at the end (Python dicts
preserve insertion order). -/
def addTag (groups : List (String × List Post)) (tag : String) (post : Post) :
    List (String × List Post) :=
  match groups with
  | [] => [(tag, [post])]
  | (k, ps) :: rest =>
    if k = tag then (k, ps ++ [post]) :: rest else (k, ps) :: addTag rest tag post

/-- The inner loop `for tag in post.tags: tagged_posts[tag].append(post)`. -/
def addPost (groups : List (String × List Post)) (post : Post) : List (String × List Post) :=
  post.tags.foldl (fun g t => addTag g t post) groups

/-- Lines 85-88: the complete grouping loop over all posts. -/
def tagGroups (posts : List Post) : List (String × List Post) :=
  posts.foldl addPost []

/-- Line 92: the synthesized title/description of a tag page. -/
def tagPageTitle (tag : String) : String := "Posts tagged \"" ++ tag ++ "\""

/-- Lines 84-99: `generate_tag_pages` renders the index template once per distinct tag
(in first-appearance order) and writes to `tags/<tag>.html`, the tag name used
verbatim. With no tags the loop body never runs, so the config is not consulted. -/
def generate_tag_pages (config : Config) (posts : List Post) :
    Except BuildError (List FsOp) :=
  match tagGroups posts with
  | [] => .ok []
  | g :: gs => do
    let fu ← feed_url config
    pure ((g :: gs).map (fun tg =>
      .write (TAGS_DIR ++ "/" ++ tg.1 ++ ".html")
        (.indexDoc ⟨fu, tagPageTitle tg.1, tagPageTitle tg.1, tg.2⟩)))

/-- Lines 112-141: `parse_markdown`, one source at a time. The `Post(...)` keyword
arguments are evaluated in source order: the `date` lookup and parse run before the
`title` lookup, and `description` is computed (safely, via an `in` test) beforehand. -/
def parseOne (src : RawPost) : Except BuildError Post := do
  let filename := src.stem ++ ".html"
  let description : Option String :=
    match metaFind src.meta "description" with
    | some lines => some (String.join lines)
    | none => none
  let dateLines ← match metaFind src.meta "date" with
                  | some ls => Except.ok ls
                  | none => Except.error (BuildError.keyError "date")
  let rawDate ← match dateLines with
                | [] => Except.error BuildError.indexError
                | d :: _ => Except.ok d
  let date ← to_rfc_3339 rawDate
  let tags := ((metaFind src.meta "tags").getD []).map pyStrip
  let title ← match metaFind src.meta "title" with
              | some ls => Except.ok (String.join ls)
              | none => Except.error (BuildError.keyError "title")
  pure { date := date, description := description, filename := filename,
         html := src.html, tags := tags, title := title, url := "/" ++ filename }

/-- Lines 112-141 over the whole source directory, in discovery order; the generator
is consumed by `list(...)` at line 159, so the first failing source aborts the build
before any file is written. -/
def parse_markdown : List RawPost → Except BuildError (List Post)
  | [] => .ok []
  | src :: rest => do
    let p ← parseOne src
    let ps ← parse_markdown rest
    pure (p :: ps)

/-- Python string comparison `<=` on character data: lexicographic by Unicode code
point, exactly CPython's `str` ordering used by `sort(key=lambda x: x.date)`. -/
def listLe : List Char → List Char → Bool
  | [], _ => true
  | _ :: _, [] => false
  | a :: as, b :: bs => if a = b then listLe as bs else decide (a < b)

/-- Python `s <= t` on strings. -/
def pyStrLe (s t : String) : Bool := listLe s.data t.data

/-- Stable insertion (earlier-discovered elements stay in front of later ones with an
equal or smaller key) used to model line 160. -/
def insertDesc (post : Post) : List Post → List Post
  | [] => [post]
  | q :: qs => if pyStrLe q.date post.date then post :: q :: qs else q :: insertDesc post qs

/-- Line 160: `posts.sort(key=lambda x: x.date, reverse=True)` — CPython's stable sort,
descending by the `date` STRING. A stable descending sort is extensionally unique
(permutation, sorted, ties in original order), so this insertion sort is a faithful
model. -/
def pySortDesc (posts : List Post) : List Post := posts.foldr insertDesc []

/-- Lines 157-158 of `generate`: `ensure_dir_exists` over `(SITE_DIR, POSTS_DIR,
TAGS_DIR)` in that order. -/
def dirSetupOps : List FsOp := [.mkdir SITE_DIR, .mkdir POSTS_DIR, .mkdir TAGS_DIR]

/-- Lines 161-167 of `generate`, after the post list has been sorted: the render and
copy stages in program order, each stage's failure aborting the remaining stages. The
one sorted list `posts` is handed to all four renderers. -/
def buildFromSorted (config : Config) (posts : List Post) : List FsOp × Option BuildError :=
  let postOps := generate_posts posts
  match generate_index_page config posts with
  | .error e => (postOps, some e)
  | .ok indexOp =>
    match generate_tag_pages config posts with
    | .error e => (postOps ++ [indexOp], some e)
    | .ok tagOps =>
      match generate_feed config posts with
      | .error e => (postOps ++ indexOp :: tagOps, some e)
      | .ok feedOp =>
        (postOps ++ indexOp :: (tagOps ++ [feedOp, .copyTree "static" (SITE_DIR ++ "/static")]),
         none)

/-- Lines 153-167: the whole build, given the loaded configuration and the converted
post sources in discovery order. Returns the filesystem operations actually performed,
in order, and the terminating exception if one is raised. Directory setup happens
BEFORE post parsing; `config` is first consulted only by the index renderer. -/
def generate (config : Config) (sources : List RawPost) : List FsOp × Option BuildError :=
  match parse_markdown sources with
  | .error e => (dirSetupOps, some e)
  | .ok posts =>
    let r := buildFromSorted config (pySortDesc posts)
    (dirSetupOps ++ r.1, r.2)

/-! ### Properties of the stable descending sort (line 160) -/

/-- The descending-by-`date`-string order that line 160 establishes. -/
def descByDate (a b : Post) : Prop := pyStrLe b.date a.date = true

theorem listLe_refl (a : List Char) : listLe a a = true := by
  induction a with
  | nil => rfl
  | cons c cs ih => simp [listLe, ih]

theorem listLe_total (a b : List Char) : listLe a b = true ∨ listLe b a = true := by
  induction a generalizing b with
  | nil => left; rfl
  | cons c cs ih =>
    cases b with
    | nil => right; rfl
    | cons d ds =>
      by_cases h : c = d
      · subst h
        rcases ih ds with h' | h'
        · left; simp [listLe, h']
        · right; simp [listLe, h']
      · have h' : ¬ d = c := fun hh => h hh.symm
        rcases lt_or_gt_of_ne h with hlt | hgt
        · left; simp [listLe, h, hlt]
        · right; simp [listLe, h', hgt]

theorem listLe_trans {a b c : List Char} (h₁ : listLe a b = true) (h₂ : listLe b c = true) :
    listLe a c = true := by
  induction a generalizing b c with
  | nil => rfl
  | cons x xs ih =>
    cases b with
    | nil => simp [listLe] at h₁
    | cons y ys =>
      cases c with
      | nil => simp [listLe] at h₂
      | cons z zs =>
        by_cases hxy : x = y
        · subst hxy
          by_cases hxz : x = z
          · subst hxz
            simp only [listLe, if_pos rfl] at h₁ h₂ ⊢
            exact ih h₁ h₂
          · simp only [listLe, if_pos rfl] at h₁
            simp only [listLe, if_neg hxz] at h₂ ⊢
            exact h₂
        · simp only [listLe, if_neg hxy, decide_eq_true_eq] at h₁
          by_cases hyz : y = z
          · subst hyz
            simp only [listLe, if_neg hxy, decide_eq_true_eq]
            exact h₁
          · simp only [listLe, if_neg hyz, decide_eq_true_eq] at h₂
            have hxz : x < z := lt_trans h₁ h₂
            simp only [listLe, if_neg (ne_of_lt hxz), decide_eq_true_eq]
            exact hxz

theorem pyStrLe_trans {s t u : String} (h₁ : pyStrLe s t = true) (h₂ : pyStrLe t u = true) :
    pyStrLe s u = true := listLe_trans h₁ h₂

theorem pyStrLe_of_not_le {s t : String} (h : ¬ pyStrLe s t = true) : pyStrLe t s = true := by
  rcases listLe_total s.data t.data with h' | h'
  · exact absurd h' h
  · exact h'

theorem insertDesc_perm (p : Post) (l : List Post) : (insertDesc p l).Perm (p :: l) := by
  induction l with
  | nil => exact List.Perm.refl _
  | cons q qs ih =>
    cases h : pyStrLe q.date p.date with
    | true => simp [insertDesc, h]
    | false =>
      simp only [insertDesc, h, Bool.false_eq_true, if_false]
      exact (ih.cons q).trans (List.Perm.swap p q qs)

theorem pySortDesc_cons (p : Post) (l : List Post) :
    pySortDesc (p :: l) = insertDesc p (pySortDesc l) := rfl

theorem pySortDesc_perm (posts : List Post) : (pySortDesc posts).Perm posts := by
  induction posts with
  | nil => exact List.Perm.refl _
  | cons p rest ih =>
    rw [pySortDesc_cons]
    exact (insertDesc_perm p (pySortDesc rest)).trans (ih.cons p)

theorem insertDesc_sorted (p : Post) (l : List Post) (hl : l.Pairwise descByDate) :
    (insertDesc p l).Pairwise descByDate := by
  induction l with
  | nil => simp [insertDesc, List.pairwise_singleton]
  | cons q qs ih =>
    rw [List.pairwise_cons] at hl
    obtain ⟨hq, hqs⟩ := hl
    cases h : pyStrLe q.date p.date with
    | true =>
      simp only [insertDesc, h, if_true]
      rw [List.pairwise_cons]
      refine ⟨?_, List.pairwise_cons.mpr ⟨hq, hqs⟩⟩
      intro x hx
      rcases List.mem_cons.mp hx with rfl | hx'
      · exact h
      · exact pyStrLe_trans (hq x hx') h
    | false =>
      simp only [insertDesc, h, Bool.false_eq_true, if_false]
      rw [List.pairwise_cons]
      refine ⟨?_, ih hqs⟩
      intro x hx
      have hx' : x ∈ p :: qs := (insertDesc_perm p qs).mem_iff.mp hx
      rcases List.mem_cons.mp hx' with rfl | hx''
      · exact pyStrLe_of_not_le (by simp [h])
      · exact hq x hx''

theorem pySortDesc_sorted (posts : List Post) : (pySortDesc posts).Pairwise descByDate := by
  induction posts with
  | nil => exact List.Pairwise.nil
  | cons p rest ih =>
    rw [pySortDesc_cons]
    exact insertDesc_sorted p (pySortDesc rest) ih

theorem insertDesc_filter (p : Post) (l : List Post) (d : String) :
    (insertDesc p l).filter (fun q => q.date == d) =
      if p.date = d then p :: l.filter (fun q => q.date == d)
      else l.filter (fun q => q.date == d) := by
  induction l with
  | nil => by_cases h : p.date = d <;> simp [insertDesc, h]
  | cons q qs ih =>
    cases h : pyStrLe q.date p.date with
    | true =>
      simp only [insertDesc, h, if_true]
      by_cases hpd : p.date = d <;> by_cases hqd : q.date = d <;>
        simp [List.filter_cons, hpd, hqd]
    | false =>
      simp only [insertDesc, h, Bool.false_eq_true, if_false]
      by_cases hpd : p.date = d
      · have hqd : ¬ q.date = d := by
          intro hqd
          have : q.date = p.date := by rw [hqd, hpd]
          rw [this] at h
          have : pyStrLe p.date p.date = true := listLe_refl _
          rw [this] at h
          exact Bool.true_eq_false.mp h
        simp [List.filter_cons, hpd, hqd, ih]
      · by_cases hqd : q.date = d <;> simp [List.filter_cons, hpd, hqd, ih]

theorem pySortDesc_filter (posts : List Post) (d : String) :
    (pySortDesc posts).filter (fun q => q.date == d) =
      posts.filter (fun q => q.date == d) := by
  induction posts with
  | nil => rfl
  | cons p rest ih =>
    rw [pySortDesc_cons, insertDesc_filter]
    by_cases h : p.date = d <;> simp [List.filter_cons, h, ih]

/-! ### Chronological semantics of parsed timestamps

Used to compare the order the build produces with genuine `publishedAt` timestamp
order: `chronoKey` maps a parsed datetime to the instant it denotes, in microseconds
UTC (proleptic Gregorian, as `datetime.toordinal`). -/

/-- Days in the months of year `y` before month `m`. -/
def daysBeforeMonth (y m : Nat) : Nat :=
  (List.range (m - 1)).foldl (fun a i => a + daysInMonth y (i + 1)) 0

/-- Proleptic-Gregorian ordinal day, as `datetime.date.toordinal`. -/
def toOrdinal (y m d : Nat) : Nat :=
  365 * (y - 1) + (y - 1) / 4 - (y - 1) / 100 + (y - 1) / 400 + daysBeforeMonth y m + d

/-- The instant a parsed datetime denotes, in microseconds UTC. -/
def chronoKey (dt : PyDatetime) : Int :=
  ((((toOrdinal dt.year dt.month dt.day : Int) * 24 + dt.hour) * 60 + dt.minute
      - dt.tzOffset.getD 0) * 60 + dt.second) * 1000000 + dt.microsecond

/-! ### Claim theorems -/

/-- C10: for every non-empty string `url`, `to_canonical_url` returns `url ++ "/"`
when `url` does not already end in `"/"`, and returns the empty string (not `url`
itself) when it does; consequently it never returns an already-canonical URL unchanged
and is not idempotent (exhibited at `"a"`: a second application of the function maps
its result `"a/"` to `""`). -/
theorem c10_to_canonical_url_spec (url : String) (h : url ≠ "") :
    (∀ c, url.data.getLast? = some c → c ≠ '/' →
        to_canonical_url url = .ok (url ++ "/")) ∧
    (url.data.getLast? = some '/' → to_canonical_url url = .ok "") ∧
    (∀ r, to_canonical_url url = .ok r → r ≠ url) ∧
    (to_canonical_url "a" = .ok "a/" ∧ to_canonical_url "a/" = .ok "" ∧
      ("" : String) ≠ "a/") := by
  have hne : url.data ≠ [] := by
    intro hh
    apply h
    cases url with
    | mk d =>
      simp only at hh
      rw [hh]
  refine ⟨?_, ?_, ?_, by rfl, by rfl, by decide⟩
  · intro c hc hcs
    simp only [to_canonical_url]
    rw [hc]
    simp [hcs]
  · intro hc
    simp only [to_canonical_url]
    rw [hc]
    simp
  · intro r hr
    cases hl : url.data.getLast? with
    | none => exact absurd (List.getLast?_eq_none_iff.mp hl) hne
    | some c =>
      simp only [to_canonical_url] at hr
      rw [hl] at hr
      simp only [Except.ok.injEq] at hr
      by_cases hcs : c = '/'
      · rw [if_neg (by simp [hcs])] at hr
        exact hr ▸ (Ne.symm h)
      · rw [if_pos hcs] at hr
        intro he
        have hru : url ++ "/" = url := by rw [hr, he]
        have hlen := congrArg String.length hru
        rw [String.length_append] at hlen
        have hone : ("/" : String).length = 1 := rfl
        rw [hone] at hlen
        omega

/-- C10 witness at the concrete input `"x"`. -/
theorem c10_witness :
    (∀ c, ("x" : String).data.getLast? = some c → c ≠ '/' →
        to_canonical_url "x" = .ok ("x" ++ "/")) ∧
    (("x" : String).data.getLast? = some '/' → to_canonical_url "x" = .ok "") ∧
    (∀ r, to_canonical_url "x" = .ok r → r ≠ "x") ∧
    (to_canonical_url "a" = .ok "a/" ∧ to_canonical_url "a/" = .ok "" ∧
      ("" : String) ≠ "a/") :=
  c10_to_canonical_url_spec "x" (by decide)

/-- C2: evaluation at the failing edge case — with the base URL present (so the
preceding keyword argument evaluates), rendering the feed over zero posts fails with
the `IndexError` inherited from `posts[0]`, not with a dedicated empty-post-set
error; no such error class exists anywhere in the program. -/
theorem c2_empty_feed_index_error (config : Config) (u : String)
    (h : config.lookup "url" = some u) :
    generate_feed config [] = .error .indexError := by
  simp [generate_feed, feedData, feed_url, cfgGet, h, Except.map, bind, Except.bind]

/-- C2 witness: the concrete spec scenario of an empty post directory. -/
theorem c2_witness :
    generate_feed [("url", "https://ex.com/")] [] = .error .indexError :=
  c2_empty_feed_index_error [("url", "https://ex.com/")] "https://ex.com/" rfl

/-- C3: for every non-empty sorted post sequence (base URL present), the
`last_pub_date` placed in the feed data equals the `date` of the first post of the
sorted sequence, and that date is maximal among all ingested posts' dates in the
string order the build sorts by. -/
theorem c3_feed_freshness (config : Config) (u : String) (posts : List Post)
    (p : Post) (rest : List Post)
    (hu : config.lookup "url" = some u)
    (hsort : pySortDesc posts = p :: rest) :
    feedData config (pySortDesc posts) =
      .ok ⟨config, p :: rest, urljoin u "feed.rss", p.date⟩ ∧
    ∀ q ∈ posts, pyStrLe q.date p.date = true := by
  constructor
  · rw [hsort]
    simp [feedData, feed_url, cfgGet, hu, bind, Except.bind, Except.map, pure, Except.pure]
  · intro q hq
    have hq' : q ∈ pySortDesc posts := (pySortDesc_perm posts).mem_iff.mpr hq
    rw [hsort] at hq'
    rcases List.mem_cons.mp hq' with rfl | hq''
    · exact listLe_refl _
    · have hs := pySortDesc_sorted posts
      rw [hsort] at hs
      exact (List.pairwise_cons.mp hs).1 q hq''

/-- C3 witness: two concrete posts; the February post is first and its date is the
feed's `last_pub_date`. -/
theorem c3_witness :
    feedData [("url", "https://ex.com/")]
        (pySortDesc
          ([⟨"2023-01-01T00:00:00Z", none, "a.html", "HA", ["go"], "A", "/a.html"⟩,
            ⟨"2023-02-01T00:00:00Z", none, "b.html", "HB", [], "B", "/b.html"⟩] :
            List Post)) =
      .ok ⟨[("url", "https://ex.com/")],
        (⟨"2023-02-01T00:00:00Z", none, "b.html", "HB", [], "B", "/b.html"⟩ : Post) ::
          [⟨"2023-01-01T00:00:00Z", none, "a.html", "HA", ["go"], "A", "/a.html"⟩],
        urljoin "https://ex.com/" "feed.rss", "2023-02-01T00:00:00Z"⟩ ∧
    ∀ q ∈ ([⟨"2023-01-01T00:00:00Z", none, "a.html", "HA", ["go"], "A", "/a.html"⟩,
            ⟨"2023-02-01T00:00:00Z", none, "b.html", "HB", [], "B", "/b.html"⟩] :
            List Post),
      pyStrLe q.date "2023-02-01T00:00:00Z" = true :=
  c3_feed_freshness [("url", "https://ex.com/")] "https://ex.com/" _ _ _ rfl (by rfl)

/-- C9: the build is deterministic — two runs on equal loaded configurations and
equal discovered sources produce identical filesystem-operation traces, hence
byte-identical output files (the embedding reflects that the code consults no clock,
randomness or other ambient state, and templates and asset copying are deterministic
capabilities). -/
theorem c9_deterministic (cfg₁ cfg₂ : Config) (src₁ src₂ : List RawPost)
    (hc : cfg₁ = cfg₂) (hs : src₁ = src₂) :
    generate cfg₁ src₁ = generate cfg₂ src₂ := by
  rw [hc, hs]

/-- C9 witness at a concrete configuration and source list. -/
theorem c9_witness :
    generate [("title", "Blog"), ("description", "D"), ("url", "https://ex.com/")]
        [⟨"a", [("date", ["2023-01-01"]), ("title", ["A"])], "H"⟩] =
      generate [("title", "Blog"), ("description", "D"), ("url", "https://ex.com/")]
        [⟨"a", [("date", ["2023-01-01"]), ("title", ["A"])], "H"⟩] :=
  c9_deterministic _ _ _ _ rfl rfl

/-- C8: evaluation at the failing input — with the required field `title` missing from
the configuration, the build does NOT abort before I/O to the output tree: it creates
all three directories (`site`, `posts`, `tags`), writes the post page `site/a.html`,
and only then terminates with `KeyError: title` raised while rendering the index. -/
theorem c8_config_error_after_io :
    (generate [("description", "D"), ("url", "https://ex.com/")]
        [⟨"a", [("date", ["2023-01-01"]), ("title", ["A"])], "H"⟩]).2 =
      some (.keyError "title") ∧
    ((generate [("description", "D"), ("url", "https://ex.com/")]
        [⟨"a", [("date", ["2023-01-01"]), ("title", ["A"])], "H"⟩]).1).map FsOp.path =
      ["site", "posts", "tags", "site/a.html"] := by
  exact ⟨by rfl, by rfl⟩

/-- C1 (amended): the single post sequence handed to every renderer is
`pySortDesc posts`: it is sorted in descending order of the normalized `date` STRING
(the code sorts by the string key, which coincides with `publishedAt` timestamp order
only when all dates normalize to one uniform format), the sort is stable — posts with
identical date strings keep their relative discovery order — and one build hands this
same single list to the post, index, tag and feed renderers. -/
theorem c1_sorted_stable_single_ordering (config : Config) (sources : List RawPost)
    (posts : List Post) (h : parse_markdown sources = .ok posts) :
    (pySortDesc posts).Pairwise descByDate ∧
    (∀ d, (pySortDesc posts).filter (fun q => q.date == d) =
        posts.filter (fun q => q.date == d)) ∧
    (pySortDesc posts).Perm posts ∧
    generate config sources =
      (dirSetupOps ++ (buildFromSorted config (pySortDesc posts)).1,
        (buildFromSorted config (pySortDesc posts)).2) := by
  refine ⟨pySortDesc_sorted posts, fun d => pySortDesc_filter posts d,
    pySortDesc_perm posts, ?_⟩
  simp [generate, h]

/-- C1 counterexample: two posts with distinct, parseable `publishedAt` timestamps for
which the sequence handed to the renderers is NOT in descending timestamp order. The
post dated `…T12:00:00.500000` denotes a strictly later instant than `…T12:00:00`
(third conjunct), yet the build places the `…T12:00:00` post first (`a.html` before
`b.html`), because the normalized strings compare `"…00Z" > "…00.500000Z"` in the
code-point order the sort key uses (`'Z' > '.'`). -/
theorem c1_counterexample :
    pyFromIso "2023-01-01T12:00:00" = some ⟨2023, 1, 1, 12, 0, 0, 0, none⟩ ∧
    pyFromIso "2023-01-01T12:00:00.500000" = some ⟨2023, 1, 1, 12, 0, 0, 500000, none⟩ ∧
    chronoKey ⟨2023, 1, 1, 12, 0, 0, 0, none⟩ <
      chronoKey ⟨2023, 1, 1, 12, 0, 0, 500000, none⟩ ∧
    Except.map (fun ps => (pySortDesc ps).map Post.filename)
      (parse_markdown
        [⟨"a", [("date", ["2023-01-01T12:00:00"]), ("title", ["A"])], "HA"⟩,
         ⟨"b", [("date", ["2023-01-01T12:00:00.500000"]), ("title", ["B"])], "HB"⟩]) =
      .ok ["a.html", "b.html"] := by
  exact ⟨by rfl, by rfl, by decide, by rfl⟩

/-- C1 witness at one concrete source. -/
theorem c1_witness :
    (pySortDesc
        [⟨"2023-01-01T00:00:00Z", none, "a.html", "H", [], "A", "/a.html"⟩]).Pairwise
      descByDate ∧
    (∀ d,
      (pySortDesc
          [⟨"2023-01-01T00:00:00Z", none, "a.html", "H", [], "A", "/a.html"⟩]).filter
        (fun q => q.date == d) =
      [⟨"2023-01-01T00:00:00Z", none, "a.html", "H", [], "A", "/a.html"⟩].filter
        (fun q => q.date == d)) ∧
    (pySortDesc
        [⟨"2023-01-01T00:00:00Z", none, "a.html", "H", [], "A", "/a.html"⟩]).Perm
      [⟨"2023-01-01T00:00:00Z", none, "a.html", "H", [], "A", "/a.html"⟩] ∧
    generate [("title", "Blog"), ("description", "D"), ("url", "https://ex.com/")]
        [⟨"a", [("date", ["2023-01-01"]), ("title", ["A"])], "H"⟩] =
      (dirSetupOps ++
        (buildFromSorted [("title", "Blog"), ("description", "D"), ("url", "https://ex.com/")]
          (pySortDesc
            [⟨"2023-01-01T00:00:00Z", none, "a.html", "H", [], "A", "/a.html"⟩])).1,
        (buildFromSorted [("title", "Blog"), ("description", "D"), ("url", "https://ex.com/")]
          (pySortDesc
            [⟨"2023-01-01T00:00:00Z", none, "a.html", "H", [], "A", "/a.html"⟩])).2) :=
  c1_sorted_stable_single_ordering _ _ _ (by rfl)

/-! ### Parsing failures (C5, C6) -/

/-- A source without a `title` key fails to parse, and the error it fails with is a
function of the metadata alone — renaming the source file cannot change it. -/
theorem parseOne_error_of_no_title {src : RawPost}
    (htitle : metaFind src.meta "title" = none) :
    ∃ e, parseOne src = .error e ∧
      ∀ stem', parseOne ⟨stem', src.meta, src.html⟩ = .error e := by
  cases hd : metaFind src.meta "date" with
  | none =>
    refine ⟨.keyError "date", ?_, fun stem' => ?_⟩ <;>
      simp [parseOne, hd, bind, Except.bind]
  | some ls =>
    cases ls with
    | nil =>
      refine ⟨.indexError, ?_, fun stem' => ?_⟩ <;>
        simp [parseOne, hd, bind, Except.bind]
    | cons d ds =>
      cases hr : to_rfc_3339 d with
      | error e =>
        refine ⟨e, ?_, fun stem' => ?_⟩ <;>
          simp [parseOne, hd, hr, bind, Except.bind]
      | ok date =>
        refine ⟨.keyError "title", ?_, fun stem' => ?_⟩ <;>
          simp [parseOne, hd, hr, htitle, bind, Except.bind]

/-- The first failing source makes the whole ingestion fail. -/
theorem parse_markdown_error_of_mem {src : RawPost} {sources : List RawPost}
    {e : BuildError} (hmem : src ∈ sources) (hfail : parseOne src = .error e) :
    ∃ e', parse_markdown sources = .error e' := by
  induction sources with
  | nil => cases hmem
  | cons s rest ih =>
    rcases List.mem_cons.mp hmem with rfl | hmem'
    · exact ⟨e, by simp [parse_markdown, hfail, bind, Except.bind]⟩
    · cases hs : parseOne s with
      | error e'' => exact ⟨e'', by simp [parse_markdown, hs, bind, Except.bind]⟩
      | ok p =>
        obtain ⟨e', he'⟩ := ih hmem'
        exact ⟨e', by simp [parse_markdown, hs, he', bind, Except.bind]⟩

/-- A failed ingestion aborts the build right after directory setup. -/
theorem generate_of_parse_error {config : Config} {sources : List RawPost}
    {e : BuildError} (h : parse_markdown sources = .error e) :
    generate config sources = (dirSetupOps, some e) := by
  simp [generate, h]

/-- C5 (amended): for every post source lacking a `title` front-matter field, parsing
fails with an error determined by the metadata alone — a `KeyError` naming the missing
field (or the date's own error), never identifying the offending source file: renaming
the source leaves the error unchanged — and a build over any source list containing it
aborts having created only the three directories and written NO output file. -/
theorem c5_missing_title_aborts (src : RawPost)
    (htitle : metaFind src.meta "title" = none) :
    (∃ e, parseOne src = .error e ∧
      ∀ stem', parseOne ⟨stem', src.meta, src.html⟩ = .error e) ∧
    ∀ config sources, src ∈ sources →
      ∃ e', generate config sources = (dirSetupOps, some e') ∧
        writesOf (generate config sources).1 = [] := by
  obtain ⟨e, he, hind⟩ := parseOne_error_of_no_title htitle
  refine ⟨⟨e, he, hind⟩, ?_⟩
  intro config sources hmem
  obtain ⟨e', he'⟩ := parse_markdown_error_of_mem hmem he
  refine ⟨e', generate_of_parse_error he', ?_⟩
  rw [generate_of_parse_error he']
  rfl

/-- C5 witness at the concrete source `hello.md` with a date but no title. -/
theorem c5_witness :
    (∃ e, parseOne ⟨"hello", [("date", ["2023-01-01"])], "H"⟩ = .error e ∧
      ∀ stem', parseOne ⟨stem', [("date", ["2023-01-01"])], "H"⟩ = .error e) ∧
    ∀ config sources, (⟨"hello", [("date", ["2023-01-01"])], "H"⟩ : RawPost) ∈ sources →
      ∃ e', generate config sources = (dirSetupOps, some e') ∧
        writesOf (generate config sources).1 = [] :=
  c5_missing_title_aborts ⟨"hello", [("date", ["2023-01-01"])], "H"⟩ rfl

/-- Whether `needle` starts `hay`. -/
def startsWithSeq : List Char → List Char → Bool
  | [], _ => true
  | _ :: _, [] => false
  | a :: as, b :: bs => a = b && startsWithSeq as bs

/-- Whether `needle` occurs contiguously anywhere inside `hay`. -/
def occursIn (needle : List Char) : List Char → Bool
  | [] => startsWithSeq needle []
  | c :: cs => startsWithSeq needle (c :: cs) || occursIn needle cs

/-- C5 counterexample to "identifies the offending source file": two sources that
differ only in their file name produce the IDENTICAL bare `KeyError: title`; the
error value `"title"` carries no occurrence of either file name. -/
theorem c5_counterexample :
    parseOne ⟨"hello", [("date", ["2023-01-01"])], "H"⟩ = .error (.keyError "title") ∧
    parseOne ⟨"other", [("date", ["2023-01-01"])], "H"⟩ = .error (.keyError "title") ∧
    occursIn "hello".data "title".data = false ∧
    occursIn "other".data "title".data = false := by
  exact ⟨by rfl, by rfl, by rfl, by rfl⟩

/-- A successful parse determines every field of the post from the source record. -/
theorem parseOne_ok_inv {src : RawPost} {post : Post} (h : parseOne src = .ok post) :
    ∃ d ds date tls, metaFind src.meta "date" = some (d :: ds) ∧
      to_rfc_3339 d = .ok date ∧ metaFind src.meta "title" = some tls ∧
      post = { date := date,
               description := match metaFind src.meta "description" with
                 | some lines => some (String.join lines)
                 | none => none,
               filename := src.stem ++ ".html", html := src.html,
               tags := ((metaFind src.meta "tags").getD []).map pyStrip,
               title := String.join tls, url := "/" ++ (src.stem ++ ".html") } := by
  cases hd : metaFind src.meta "date" with
  | none => simp [parseOne, hd, bind, Except.bind] at h
  | some ls =>
    cases ls with
    | nil => simp [parseOne, hd, bind, Except.bind] at h
    | cons d ds =>
      cases hr : to_rfc_3339 d with
      | error e => simp [parseOne, hd, hr, bind, Except.bind] at h
      | ok date =>
        cases ht : metaFind src.meta "title" with
        | none => simp [parseOne, hd, hr, ht, bind, Except.bind] at h
        | some tls =>
          refine ⟨d, ds, date, tls, rfl, hr, rfl, ?_⟩
          simp only [parseOne, hd, hr, ht, bind, Except.bind, pure, Except.pure,
            Except.ok.injEq] at h
          exact h.symm

/-- C6 (amended): for every ingested post, `tags` is exactly the raw tag list with
each entry whitespace-trimmed, in order and with multiplicity — duplicates and empty
strings are NOT removed — and it is the empty list when the source supplies no tags. -/
theorem c6_tags_trimmed (src : RawPost) (post : Post) (h : parseOne src = .ok post) :
    post.tags = ((metaFind src.meta "tags").getD []).map pyStrip ∧
    (metaFind src.meta "tags" = none → post.tags = []) := by
  obtain ⟨d, ds, date, tls, _, _, _, hpost⟩ := parseOne_ok_inv h
  subst hpost
  refine ⟨rfl, ?_⟩
  intro hnone
  simp [hnone]

/-- C6 witness at a concrete source whose raw tags are `"a "`, `"a"`, `"  "`. -/
theorem c6_witness :
    (⟨"2023-01-01T00:00:00Z", none, "a.html", "H", ["a", "a", ""], "T", "/a.html"⟩ :
        Post).tags =
      ((metaFind [("date", ["2023-01-01"]), ("title", ["T"]),
          ("tags", ["a ", "a", "  "])] "tags").getD []).map pyStrip ∧
    (metaFind [("date", ["2023-01-01"]), ("title", ["T"]),
        ("tags", ["a ", "a", "  "])] "tags" = none →
      (⟨"2023-01-01T00:00:00Z", none, "a.html", "H", ["a", "a", ""], "T", "/a.html"⟩ :
          Post).tags = []) :=
  c6_tags_trimmed
    ⟨"a", [("date", ["2023-01-01"]), ("title", ["T"]), ("tags", ["a ", "a", "  "])], "H"⟩
    ⟨"2023-01-01T00:00:00Z", none, "a.html", "H", ["a", "a", ""], "T", "/a.html"⟩
    (by rfl)

/-- C6 counterexample: the stored tag list of that source is `["a", "a", ""]` — it
contains a duplicate and an empty string, refuting deduplication and non-emptiness. -/
theorem c6_counterexample :
    Except.map Post.tags
      (parseOne ⟨"a", [("date", ["2023-01-01"]), ("title", ["T"]),
        ("tags", ["a ", "a", "  "])], "H"⟩) = .ok ["a", "a", ""] ∧
    ¬ (["a", "a", ""] : List String).Nodup ∧
    ("" : String) ∈ (["a", "a", ""] : List String) := by
  exact ⟨by rfl, by decide, by decide⟩

/-! ### Tag aggregation (C7) -/

/-- Lookup in the tag-group association list (Python `tagged_posts[tag]`). -/
def groupsFind : List (String × List Post) → String → Option (List Post)
  | [], _ => none
  | (k, ps) :: rest, t => if k = t then some ps else groupsFind rest t

/-- The posts carrying tag `t`, in global post order, one copy per occurrence of `t`
in the post's tag list. -/
def tagFlat (posts : List Post) (t : String) : List Post :=
  posts.foldr (fun p acc => List.replicate (p.tags.count t) p ++ acc) []

/-- Combining a group's previous value with `n` appended copies of `p`. -/
def groupAfter (o : Option (List Post)) (n : Nat) (p : Post) : Option (List Post) :=
  match o, n with
  | some g, n => some (g ++ List.replicate n p)
  | none, 0 => none
  | none, n + 1 => some (List.replicate (n + 1) p)

/-- Combining a group's previous value with an appended list of copies. -/
def groupPlus (o : Option (List Post)) (l : List Post) : Option (List Post) :=
  match o, l with
  | some g, l => some (g ++ l)
  | none, [] => none
  | none, _ :: _ => some l

theorem groupsFind_addTag_self (groups : List (String × List Post)) (t : String)
    (p : Post) :
    groupsFind (addTag groups t p) t = some ((groupsFind groups t).getD [] ++ [p]) := by
  induction groups with
  | nil => simp [addTag, groupsFind]
  | cons kv rest ih =>
    obtain ⟨k, ps⟩ := kv
    by_cases hk : k = t
    · subst hk
      simp [addTag, groupsFind]
    · simp [addTag, groupsFind, hk, ih]

theorem groupsFind_addTag_ne (groups : List (String × List Post)) {t t' : String}
    (p : Post) (hne : t' ≠ t) :
    groupsFind (addTag groups t p) t' = groupsFind groups t' := by
  have hne' : ¬ t = t' := fun h => hne h.symm
  induction groups with
  | nil => simp [addTag, groupsFind, hne']
  | cons kv rest ih =>
    obtain ⟨k, ps⟩ := kv
    by_cases hk : k = t
    · subst hk
      simp [addTag, groupsFind, hne']
    · simp [addTag, groupsFind, hk, ih]

theorem groupAfter_zero (o : Option (List Post)) (p : Post) : groupAfter o 0 p = o := by
  cases o <;> simp [groupAfter]

theorem groupAfter_self_succ (o : Option (List Post)) (n : Nat) (p : Post) :
    groupAfter (some ((o.getD []) ++ [p])) n p = groupAfter o (n + 1) p := by
  cases o with
  | some g =>
    simp [groupAfter, List.replicate_succ]
  | none =>
    simp [groupAfter, List.replicate_succ]

theorem groupsFind_tagFold (ts : List String) (p : Post)
    (groups : List (String × List Post)) (t : String) :
    groupsFind (ts.foldl (fun g tg => addTag g tg p) groups) t =
      groupAfter (groupsFind groups t) (ts.count t) p := by
  induction ts generalizing groups with
  | nil => simp [groupAfter_zero]
  | cons tg ts' ih =>
    simp only [List.foldl_cons]
    rw [ih]
    by_cases htg : tg = t
    · subst htg
      rw [groupsFind_addTag_self, groupAfter_self_succ]
      simp [List.count_cons]
    · rw [groupsFind_addTag_ne _ p (fun h => htg h.symm)]
      simp [List.count_cons, htg]

theorem groupsFind_addPost (groups : List (String × List Post)) (p : Post) (t : String) :
    groupsFind (addPost groups p) t =
      groupAfter (groupsFind groups t) (p.tags.count t) p :=
  groupsFind_tagFold p.tags p groups t

theorem tagFlat_cons (p : Post) (rest : List Post) (t : String) :
    tagFlat (p :: rest) t = List.replicate (p.tags.count t) p ++ tagFlat rest t := rfl

theorem groupPlus_nil (o : Option (List Post)) : groupPlus o [] = o := by
  cases o <;> simp [groupPlus]

theorem groupPlus_groupAfter (o : Option (List Post)) (n : Nat) (p : Post)
    (l : List Post) :
    groupPlus (groupAfter o n p) l = groupPlus o (List.replicate n p ++ l) := by
  cases o with
  | some g => simp [groupAfter, groupPlus, List.append_assoc]
  | none =>
    cases n with
    | zero => simp [groupAfter, groupPlus]
    | succ m =>
      simp [groupAfter, groupPlus, List.replicate_succ]

theorem groupsFind_foldl_addPost (posts : List Post)
    (groups : List (String × List Post)) (t : String) :
    groupsFind (posts.foldl addPost groups) t =
      groupPlus (groupsFind groups t) (tagFlat posts t) := by
  induction posts generalizing groups with
  | nil => simp [tagFlat, groupPlus_nil]
  | cons p rest ih =>
    simp only [List.foldl_cons]
    rw [ih, groupsFind_addPost, groupPlus_groupAfter, tagFlat_cons]

theorem groupsFind_tagGroups (posts : List Post) (t : String) :
    groupsFind (tagGroups posts) t = groupPlus none (tagFlat posts t) := by
  rw [tagGroups, groupsFind_foldl_addPost]
  rfl

/-- The group of tag `t` (empty when absent) is exactly the posts carrying `t` in
global order, with the multiplicity of the tag occurrences. -/
theorem groupOf_eq_tagFlat (posts : List Post) (t : String) :
    (groupsFind (tagGroups posts) t).getD [] = tagFlat posts t := by
  rw [groupsFind_tagGroups]
  cases h : tagFlat posts t with
  | nil => simp [groupPlus]
  | cons q l => simp [groupPlus]

theorem mem_tagFlat {p : Post} {posts : List Post} {t : String} :
    p ∈ tagFlat posts t ↔ p ∈ posts ∧ t ∈ p.tags := by
  induction posts with
  | nil => simp [tagFlat]
  | cons q rest ih =>
    rw [tagFlat_cons]
    simp only [List.mem_append, List.mem_replicate, List.mem_cons, ih]
    constructor
    · rintro (⟨hn, rfl⟩ | ⟨hmem, ht⟩)
      · exact ⟨Or.inl rfl, List.count_pos_iff.mp (Nat.pos_of_ne_zero hn)⟩
      · exact ⟨Or.inr hmem, ht⟩
    · rintro ⟨rfl | hmem, ht⟩
      · exact Or.inl ⟨Nat.pos_iff_ne_zero.mp (List.count_pos_iff.mpr ht), rfl⟩
      · exact Or.inr ⟨hmem, ht⟩

theorem tagFlat_eq_filter {posts : List Post} {t : String}
    (h : ∀ p ∈ posts, p.tags.Nodup) :
    tagFlat posts t = posts.filter (fun p => decide (t ∈ p.tags)) := by
  induction posts with
  | nil => rfl
  | cons q rest ih =>
    rw [tagFlat_cons, ih (fun p hp => h p (List.mem_cons_of_mem q hp))]
    by_cases hq : t ∈ q.tags
    · have hc : q.tags.count t = 1 :=
        List.count_eq_one_of_mem (h q (List.mem_cons_self q rest)) hq
      simp [List.filter_cons, hq, hc]
    · have hc : q.tags.count t = 0 := List.count_eq_zero.mpr hq
      simp [List.filter_cons, hq, hc]

/-- Keys of the group list after `addTag`: unchanged when present, appended when new. -/
theorem keys_addTag (groups : List (String × List Post)) (t : String) (p : Post) :
    (addTag groups t p).map Prod.fst =
      if (groupsFind groups t).isSome then groups.map Prod.fst
      else groups.map Prod.fst ++ [t] := by
  induction groups with
  | nil => simp [addTag, groupsFind]
  | cons kv rest ih =>
    obtain ⟨k, ps⟩ := kv
    by_cases hk : k = t
    · subst hk
      simp [addTag, groupsFind]
    · simp only [addTag, if_neg hk, groupsFind, List.map_cons]
      rw [ih]
      by_cases hs : (groupsFind rest t).isSome <;> simp [hs, hk]

theorem groupsFind_eq_none_iff (groups : List (String × List Post)) (t : String) :
    groupsFind groups t = none ↔ t ∉ groups.map Prod.fst := by
  induction groups with
  | nil => simp [groupsFind]
  | cons kv rest ih =>
    obtain ⟨k, ps⟩ := kv
    by_cases hk : k = t
    · subst hk
      simp [groupsFind]
    · simp only [groupsFind, if_neg hk, List.map_cons, List.mem_cons, not_or, ih]
      constructor
      · intro h
        exact ⟨fun h' => hk h'.symm, h⟩
      · intro h
        exact h.2

theorem keys_nodup_addTag {groups : List (String × List Post)} (t : String) (p : Post)
    (h : (groups.map Prod.fst).Nodup) : ((addTag groups t p).map Prod.fst).Nodup := by
  rw [keys_addTag]
  cases hs : (groupsFind groups t).isSome with
  | true => simpa using h
  | false =>
    have hnone : groupsFind groups t = none := by
      cases hg : groupsFind groups t
      · rfl
      · rw [hg] at hs; simp at hs
    have hnotin : t ∉ groups.map Prod.fst := (groupsFind_eq_none_iff groups t).mp hnone
    simp only [Bool.false_eq_true, if_false]
    rw [List.nodup_append]
    refine ⟨h, List.nodup_singleton t, ?_⟩
    intro a ha hat
    rw [List.mem_singleton] at hat
    subst hat
    exact hnotin ha

theorem keys_nodup_addPost {groups : List (String × List Post)} (p : Post)
    (h : (groups.map Prod.fst).Nodup) : ((addPost groups p).map Prod.fst).Nodup := by
  rw [addPost]
  induction p.tags generalizing groups with
  | nil => exact h
  | cons tg ts ih =>
    simp only [List.foldl_cons]
    exact ih (keys_nodup_addTag tg p h)

/-- The keys of `tagGroups` (the distinct tags, hence the written tag pages) carry no
duplicates. -/
theorem keys_nodup_tagGroups (posts : List Post) :
    ((tagGroups posts).map Prod.fst).Nodup := by
  rw [tagGroups]
  have h : ∀ groups : List (String × List Post), (groups.map Prod.fst).Nodup →
      ((posts.foldl addPost groups).map Prod.fst).Nodup := by
    induction posts with
    | nil => exact fun groups h => h
    | cons p rest ih =>
      intro groups h
      simp only [List.foldl_cons]
      exact ih (addPost groups p) (keys_nodup_addPost p h)
  exact h [] (by simp)

/-- A tag has a key (hence a page) exactly when some post carries it. -/
theorem mem_keys_tagGroups (posts : List Post) (t : String) :
    t ∈ (tagGroups posts).map Prod.fst ↔ ∃ p ∈ posts, t ∈ p.tags := by
  constructor
  · intro h
    have hne : groupsFind (tagGroups posts) t ≠ none := by
      rw [ne_eq, groupsFind_eq_none_iff]
      simpa using h
    cases hg : groupsFind (tagGroups posts) t with
    | none => exact absurd hg hne
    | some g =>
      have hflat : tagFlat posts t ≠ [] := by
        intro hnil
        rw [groupsFind_tagGroups, hnil] at hg
        simp [groupPlus] at hg
      cases hf : tagFlat posts t with
      | nil => exact absurd hf hflat
      | cons q l =>
        have hq : q ∈ tagFlat posts t := by rw [hf]; exact List.mem_cons_self q l
        obtain ⟨hmem, ht⟩ := mem_tagFlat.mp hq
        exact ⟨q, hmem, ht⟩
  · rintro ⟨p, hmem, ht⟩
    by_contra hnotin
    have hnone : groupsFind (tagGroups posts) t = none :=
      (groupsFind_eq_none_iff _ t).mpr hnotin
    have hp : p ∈ tagFlat posts t := mem_tagFlat.mpr ⟨hmem, ht⟩
    rw [groupsFind_tagGroups] at hnone
    cases hf : tagFlat posts t with
    | nil => rw [hf] at hp; cases hp
    | cons q l => rw [hf] at hnone; simp [groupPlus] at hnone

/-- C7 (amended): tag aggregation partitions the post set by tag — a post appears in
the group of `t` exactly when it carries `t` (so a post with N distinct tags appears
in exactly those N groups and no other); each group lists the carrying posts in the
relative order of the global sorted post set (one copy per occurrence of the tag, and
literally `posts.filter` whenever no post repeats a tag), the distinct tags are
pairwise different so exactly one page is rendered per distinct tag; but pages are
written to `tags/<tag>.html` (tag name verbatim) beside — NOT inside — the `site`
output root. -/
theorem c7_tag_fanout (config : Config) (u : String) (posts : List Post)
    (hu : config.lookup "url" = some u) :
    (∀ p t, p ∈ (groupsFind (tagGroups posts) t).getD [] ↔ p ∈ posts ∧ t ∈ p.tags) ∧
    (∀ t, (groupsFind (tagGroups posts) t).getD [] = tagFlat posts t) ∧
    (∀ t, (∀ p ∈ posts, p.tags.Nodup) →
      (groupsFind (tagGroups posts) t).getD [] =
        posts.filter (fun p => decide (t ∈ p.tags))) ∧
    ((tagGroups posts).map Prod.fst).Nodup ∧
    (∀ t, t ∈ (tagGroups posts).map Prod.fst ↔ ∃ p ∈ posts, t ∈ p.tags) ∧
    generate_tag_pages config posts =
      .ok ((tagGroups posts).map (fun tg =>
        .write (TAGS_DIR ++ "/" ++ tg.1 ++ ".html")
          (.indexDoc ⟨urljoin u "feed.rss", tagPageTitle tg.1, tagPageTitle tg.1,
            tg.2⟩))) := by
  refine ⟨?_, fun t => groupOf_eq_tagFlat posts t, ?_, keys_nodup_tagGroups posts,
    mem_keys_tagGroups posts, ?_⟩
  · intro p t
    rw [groupOf_eq_tagFlat]
    exact mem_tagFlat
  · intro t h
    rw [groupOf_eq_tagFlat]
    exact tagFlat_eq_filter h
  · cases hg : tagGroups posts with
    | nil => simp [generate_tag_pages, hg]
    | cons g gs =>
      simp [generate_tag_pages, hg, feed_url, cfgGet, hu, bind, Except.bind,
        Except.map, pure, Except.pure]

/-- C7 witness at a concrete configuration and a two-tag post plus an untagged one. -/
theorem c7_witness :
    (∀ p t, p ∈ (groupsFind (tagGroups
        ([⟨"2023-01-01T00:00:00Z", none, "a.html", "H", ["a", "b"], "A", "/a.html"⟩,
          ⟨"2023-02-01T00:00:00Z", none, "b.html", "H", [], "B", "/b.html"⟩] :
          List Post)) t).getD [] ↔
      p ∈ ([⟨"2023-01-01T00:00:00Z", none, "a.html", "H", ["a", "b"], "A", "/a.html"⟩,
            ⟨"2023-02-01T00:00:00Z", none, "b.html", "H", [], "B", "/b.html"⟩] :
            List Post) ∧ t ∈ p.tags) ∧
    (∀ t, (groupsFind (tagGroups
        ([⟨"2023-01-01T00:00:00Z", none, "a.html", "H", ["a", "b"], "A", "/a.html"⟩,
          ⟨"2023-02-01T00:00:00Z", none, "b.html", "H", [], "B", "/b.html"⟩] :
          List Post)) t).getD [] =
      tagFlat ([⟨"2023-01-01T00:00:00Z", none, "a.html", "H", ["a", "b"], "A", "/a.html"⟩,
          ⟨"2023-02-01T00:00:00Z", none, "b.html", "H", [], "B", "/b.html"⟩] :
          List Post) t) ∧
    (∀ t, (∀ p ∈ ([⟨"2023-01-01T00:00:00Z", none, "a.html", "H", ["a", "b"], "A", "/a.html"⟩,
          ⟨"2023-02-01T00:00:00Z", none, "b.html", "H", [], "B", "/b.html"⟩] :
          List Post), p.tags.Nodup) →
      (groupsFind (tagGroups
        ([⟨"2023-01-01T00:00:00Z", none, "a.html", "H", ["a", "b"], "A", "/a.html"⟩,
          ⟨"2023-02-01T00:00:00Z", none, "b.html", "H", [], "B", "/b.html"⟩] :
          List Post)) t).getD [] =
        ([⟨"2023-01-01T00:00:00Z", none, "a.html", "H", ["a", "b"], "A", "/a.html"⟩,
          ⟨"2023-02-01T00:00:00Z", none, "b.html", "H", [], "B", "/b.html"⟩] :
          List Post).filter (fun p => decide (t ∈ p.tags))) ∧
    ((tagGroups ([⟨"2023-01-01T00:00:00Z", none, "a.html", "H", ["a", "b"], "A", "/a.html"⟩,
          ⟨"2023-02-01T00:00:00Z", none, "b.html", "H", [], "B", "/b.html"⟩] :
          List Post)).map Prod.fst).Nodup ∧
    (∀ t, t ∈ (tagGroups ([⟨"2023-01-01T00:00:00Z", none, "a.html", "H", ["a", "b"], "A", "/a.html"⟩,
          ⟨"2023-02-01T00:00:00Z", none, "b.html", "H", [], "B", "/b.html"⟩] :
          List Post)).map Prod.fst ↔
      ∃ p ∈ ([⟨"2023-01-01T00:00:00Z", none, "a.html", "H", ["a", "b"], "A", "/a.html"⟩,
          ⟨"2023-02-01T00:00:00Z", none, "b.html", "H", [], "B", "/b.html"⟩] :
          List Post), t ∈ p.tags) ∧
    generate_tag_pages [("url", "https://ex.com/")]
        ([⟨"2023-01-01T00:00:00Z", none, "a.html", "H", ["a", "b"], "A", "/a.html"⟩,
          ⟨"2023-02-01T00:00:00Z", none, "b.html", "H", [], "B", "/b.html"⟩] :
          List Post) =
      .ok ((tagGroups ([⟨"2023-01-01T00:00:00Z", none, "a.html", "H", ["a", "b"], "A", "/a.html"⟩,
          ⟨"2023-02-01T00:00:00Z", none, "b.html", "H", [], "B", "/b.html"⟩] :
          List Post)).map (fun tg =>
        .write (TAGS_DIR ++ "/" ++ tg.1 ++ ".html")
          (.indexDoc ⟨urljoin "https://ex.com/" "feed.rss", tagPageTitle tg.1,
            tagPageTitle tg.1, tg.2⟩))) :=
  c7_tag_fanout [("url", "https://ex.com/")] "https://ex.com/" _ rfl

/-- C7 counterexample to the output location: the one tag page of a post tagged `go`
is written to `tags/go.html`, whose path does not lie under the output root `site/`
where the index page (`site/index.html`) and every other artifact go. -/
theorem c7_counterexample :
    Except.map (List.map FsOp.path)
      (generate_tag_pages [("url", "https://ex.com/")]
        [⟨"2023-01-01T00:00:00Z", none, "a.html", "H", ["go"], "A", "/a.html"⟩]) =
      .ok ["tags/go.html"] ∧
    Except.map FsOp.path
      (generate_index_page [("title", "B"), ("description", "D"), ("url", "https://ex.com/")]
        []) = .ok "site/index.html" ∧
    ("site/index.html" : String).data.take 5 = ("site/" : String).data ∧
    ("tags/go.html" : String).data.take 5 ≠ ("site/" : String).data := by
  exact ⟨by rfl, by rfl, by rfl, by decide⟩

/-! ### Date normalization (C4) -/

/-- Consume exactly `n` digit characters. -/
def chkDigits : Nat → List Char → Option (List Char)
  | 0, cs => some cs
  | n + 1, c :: cs => if c.isDigit then chkDigits n cs else none
  | _ + 1, [] => none

/-- The tail after the seconds field of a UTC-marked timestamp: either exactly `Z`, or
a dot, exactly six fractional digits, and exactly `Z`. -/
def chkTailUTC (cs : List Char) : Bool :=
  match cs with
  | '.' :: rest =>
    (match chkDigits 6 rest with
     | some tail => decide (tail = ['Z'])
     | none => false)
  | other => decide (other = ['Z'])

/-- Modelled from the spec: "normalized to an explicit UTC-suffixed RFC-3339-like
string (a well-formed timestamp ending in a UTC marker)" — the string must be exactly
`YYYY-MM-DDTHH:MM:SS[.ffffff]Z`, ending in the UTC marker with no other zone
designator before it. -/
def isUTCSuffixedRFC3339 (s : String) : Bool :=
  let r := (chkDigits 4 s.data).bind (expectChar '-')
  let r := r.bind (chkDigits 2)
  let r := r.bind (expectChar '-')
  let r := r.bind (chkDigits 2)
  let r := r.bind (expectChar 'T')
  let r := r.bind (chkDigits 2)
  let r := r.bind (expectChar ':')
  let r := r.bind (chkDigits 2)
  let r := r.bind (expectChar ':')
  let r := r.bind (chkDigits 2)
  r.elim false chkTailUTC

theorem char_digit_le {c : Char} (h : c.isDigit = true) : c.toNat - 48 ≤ 9 := by
  simp only [Char.isDigit, Bool.and_eq_true, decide_eq_true_eq] at h
  obtain ⟨h1, h2⟩ := h
  have h2' : c.val.toNat ≤ 57 := h2
  simp only [Char.toNat]
  omega

theorem digitChar_isDigit {k : Nat} (h : k < 10) :
    (Char.ofNat (48 + k)).isDigit = true := by
  interval_cases k <;> decide

theorem natToDigitsAux_digits (fuel : Nat) :
    ∀ (n : Nat), ∀ c ∈ natToDigitsAux fuel n, c.isDigit = true := by
  induction fuel with
  | zero => intro n c hc; cases hc
  | succ fuel ih =>
    intro n c hc
    by_cases hn : n = 0
    · simp [natToDigitsAux, hn] at hc
    · simp only [natToDigitsAux, if_neg hn, List.mem_append, List.mem_singleton] at hc
      rcases hc with hc | rfl
      · exact ih (n / 10) c hc
      · exact digitChar_isDigit (Nat.mod_lt n (by norm_num))

theorem natToDigitsAux_length (w : Nat) :
    ∀ (fuel n : Nat), n < 10 ^ w → (natToDigitsAux fuel n).length ≤ w := by
  induction w with
  | zero =>
    intro fuel n h
    have hn : n = 0 := Nat.lt_one_iff.mp (by simpa using h)
    cases fuel <;> simp [natToDigitsAux, hn]
  | succ w ih =>
    intro fuel n h
    cases fuel with
    | zero => simp [natToDigitsAux]
    | succ fuel =>
      by_cases hn : n = 0
      · simp [natToDigitsAux, hn]
      · simp only [natToDigitsAux, if_neg hn, List.length_append, List.length_singleton]
        have hdiv : n / 10 < 10 ^ w := by
          rw [Nat.div_lt_iff_lt_mul (by norm_num)]
          rw [pow_succ] at h
          exact h
        have := ih fuel (n / 10) hdiv
        omega

theorem padNum_length {w n : Nat} (h : n < 10 ^ w) : (padNum w n).length = w := by
  have hle : (natToDigits n).length ≤ w := natToDigitsAux_length w n n h
  simp only [padNum, List.length_append, List.length_replicate]
  omega

theorem padNum_digits (w n : Nat) : ∀ c ∈ padNum w n, c.isDigit = true := by
  intro c hc
  simp only [padNum, List.mem_append, List.mem_replicate] at hc
  rcases hc with ⟨_, rfl⟩ | hc
  · decide
  · exact natToDigitsAux_digits n n c hc

theorem chkDigits_append {n : Nat} {ds rest : List Char}
    (hlen : ds.length = n) (hdig : ∀ c ∈ ds, c.isDigit = true) :
    chkDigits n (ds ++ rest) = some rest := by
  induction ds generalizing n with
  | nil =>
    simp only [List.length_nil] at hlen
    subst hlen
    rfl
  | cons c cs ih =>
    cases n with
    | zero => simp at hlen
    | succ m =>
      simp only [List.cons_append, chkDigits,
        if_pos (hdig c (List.mem_cons_self c cs))]
      exact ih (by simpa using hlen) (fun c' hc' => hdig c' (List.mem_cons_of_mem _ hc'))

theorem expectChar_cons (c : Char) (rest : List Char) :
    expectChar c (c :: rest) = some rest := by
  simp [expectChar]

theorem readFixed_bound :
    ∀ {n acc : Nat} {cs : List Char} {v : Nat} {rest : List Char},
      readFixed n acc cs = some (v, rest) → v < (acc + 1) * 10 ^ n := by
  intro n
  induction n with
  | zero =>
    intro acc cs v rest h
    simp only [readFixed, Option.some.injEq, Prod.mk.injEq] at h
    omega
  | succ m ih =>
    intro acc cs v rest h
    cases cs with
    | nil => simp [readFixed] at h
    | cons c cs' =>
      simp only [readFixed] at h
      by_cases hd : c.isDigit
      · rw [if_pos hd] at h
        have hb := ih h
        have hd9 : c.toNat - 48 ≤ 9 := char_digit_le hd
        calc v < (acc * 10 + (c.toNat - 48) + 1) * 10 ^ m := hb
          _ ≤ ((acc + 1) * 10) * 10 ^ m := by
              apply Nat.mul_le_mul_right
              omega
          _ = (acc + 1) * 10 ^ (m + 1) := by
              rw [pow_succ]
              ring
      · rw [if_neg hd] at h
        cases h

theorem foldlDigits_bound (ds : List Char) :
    ∀ (acc : Nat), (∀ c ∈ ds, c.isDigit = true) →
      ds.foldl (fun a c => a * 10 + (c.toNat - 48)) acc < (acc + 1) * 10 ^ ds.length := by
  induction ds with
  | nil => intro acc _; simp
  | cons c cs ih =>
    intro acc hdig
    simp only [List.foldl_cons, List.length_cons]
    have hd9 : c.toNat - 48 ≤ 9 := char_digit_le (hdig c (List.mem_cons_self c cs))
    have hb := ih (acc * 10 + (c.toNat - 48))
      (fun c' hc' => hdig c' (List.mem_cons_of_mem _ hc'))
    calc cs.foldl (fun a c => a * 10 + (c.toNat - 48)) (acc * 10 + (c.toNat - 48))
        < (acc * 10 + (c.toNat - 48) + 1) * 10 ^ cs.length := hb
      _ ≤ ((acc + 1) * 10) * 10 ^ cs.length := by
          apply Nat.mul_le_mul_right
          omega
      _ = (acc + 1) * 10 ^ (cs.length + 1) := by
          rw [pow_succ]
          ring

theorem readFrac_bound {cs : List Char} {us : Nat} {rest : List Char}
    (h : readFrac cs = some (us, rest)) : us < 1000000 := by
  simp only [readFrac] at h
  split at h
  · cases h
  · rename_i hcond
    simp only [Option.some.injEq, Prod.mk.injEq] at h
    obtain ⟨hus, _⟩ := h
    push_neg at hcond
    obtain ⟨hne, hle⟩ := hcond
    set ds := cs.takeWhile Char.isDigit with hds
    have hdig : ∀ c ∈ ds, c.isDigit = true := fun c hc => List.mem_takeWhile_imp hc
    have hval : ds.foldl (fun a c => a * 10 + (c.toNat - 48)) 0 < 10 ^ ds.length := by
      have := foldlDigits_bound ds 0 hdig
      simpa using this
    have hfinal : ds.foldl (fun a c => a * 10 + (c.toNat - 48)) 0 * 10 ^ (6 - ds.length)
        < 1000000 := by
      have hlt : ds.foldl (fun a c => a * 10 + (c.toNat - 48)) 0 * 10 ^ (6 - ds.length)
          < 10 ^ ds.length * 10 ^ (6 - ds.length) :=
        (Nat.mul_lt_mul_right (Nat.pos_pow_of_pos _ (by norm_num))).mpr hval
      have hpow : 10 ^ ds.length * 10 ^ (6 - ds.length) = 10 ^ 6 := by
        rw [← pow_add]
        congr 1
        omega
      rw [hpow] at hlt
      exact hlt
    omega

theorem readTime_us_lt {cs : List Char} {h mi se us : Nat} {rest : List Char}
    (hr : readTime cs = some (h, mi, se, us, rest)) : us < 1000000 := by
  unfold readTime at hr
  split at hr
  · cases hr
  · split at hr
    · split at hr
      · cases hr
      · split at hr
        · split at hr
          · cases hr
          · split at hr
            · split at hr
              · cases hr
              · rename_i hfrac
                simp only [Option.some.injEq, Prod.mk.injEq] at hr
                obtain ⟨_, _, _, hus, _⟩ := hr
                subst hus
                exact readFrac_bound hfrac
            · simp only [Option.some.injEq, Prod.mk.injEq] at hr
              obtain ⟨_, _, _, hus, _⟩ := hr
              omega
        · simp only [Option.some.injEq, Prod.mk.injEq] at hr
          obtain ⟨_, _, _, hus, _⟩ := hr
          omega
    · simp only [Option.some.injEq, Prod.mk.injEq] at hr
      obtain ⟨_, _, _, hus, _⟩ := hr
      omega

/-- Every accepted datetime has bounded fields; in particular each field fits the
width its `isoformat` rendering pads it to. -/
theorem pyFromIso_bounds {s : String} {dt : PyDatetime} (h : pyFromIso s = some dt) :
    dt.year < 10000 ∧ dt.month < 100 ∧ dt.day < 100 ∧ dt.hour < 100 ∧
    dt.minute < 100 ∧ dt.second < 100 ∧ dt.microsecond < 1000000 := by
  unfold pyFromIso at h
  simp only [Option.bind_eq_some] at h
  obtain ⟨⟨y, cs₁⟩, hy, h⟩ := h
  obtain ⟨cs₂, h₂, h⟩ := h
  obtain ⟨⟨mo, cs₃⟩, hmo', h⟩ := h
  obtain ⟨cs₄, h₄, h⟩ := h
  obtain ⟨⟨d, cs₅⟩, hd', h⟩ := h
  obtain ⟨⟨hh, mi, se, us, cs₆⟩, htm, h⟩ := h
  obtain ⟨tz, htz', h⟩ := h
  split at h
  · rename_i hval
    simp only [Option.some.injEq] at h
    subst h
    have hy4 : y < 10000 := by
      have := readFixed_bound hy
      simpa using this
    have hus : us < 1000000 := by
      cases cs₅ with
      | nil =>
        have htm' : some (0, 0, 0, 0, ([] : List Char)) = some (hh, mi, se, us, cs₆) :=
          htm
        simp only [Option.some.injEq, Prod.mk.injEq] at htm'
        omega
      | cons c rest =>
        have htm' : (if c = 'T' ∨ c = ' ' then readTime rest else none) =
            some (hh, mi, se, us, cs₆) := htm
        by_cases hc : c = 'T' ∨ c = ' '
        · rw [if_pos hc] at htm'
          exact readTime_us_lt htm'
        · rw [if_neg hc] at htm'
          cases htm'
    obtain ⟨hy1, hmo1, hmo12, hd1, hdle, hhle, hmile, hsele⟩ := hval
    have hdle' : d ≤ daysInMonth y mo := hdle
    have hmo12' : mo ≤ 12 := hmo12
    have hhle' : hh ≤ 23 := hhle
    have hmile' : mi ≤ 59 := hmile
    have hsele' : se ≤ 59 := hsele
    have hdim : daysInMonth y mo ≤ 31 := by
      unfold daysInMonth
      split
      · split <;> omega
      · split <;> omega
    exact ⟨hy4, show mo < 100 by omega, show d < 100 by omega,
      show hh < 100 by omega, show mi < 100 by omega, show se < 100 by omega, hus⟩
  · cases h

/-- Naive datetimes format (with the appended `"Z"`) to a well-formed UTC-suffixed
timestamp. -/
theorem isUTC_of_naive {dt : PyDatetime} (hy : dt.year < 10000) (hmo : dt.month < 100)
    (hd : dt.day < 100) (hh : dt.hour < 100) (hmi : dt.minute < 100)
    (hse : dt.second < 100) (hus : dt.microsecond < 1000000)
    (htz : dt.tzOffset = none) :
    isUTCSuffixedRFC3339 (pyIsoformat dt ++ "Z") = true := by
  have hdata : (pyIsoformat dt ++ "Z").data = pyIsoformatData dt ++ ['Z'] := rfl
  simp only [isUTCSuffixedRFC3339, hdata, pyIsoformatData, htz, List.append_nil,
    List.append_assoc, List.cons_append]
  rw [chkDigits_append (padNum_length hy) (padNum_digits 4 dt.year)]
  simp only [Option.some_bind]
  rw [expectChar_cons]
  simp only [Option.some_bind]
  rw [chkDigits_append (padNum_length hmo) (padNum_digits 2 dt.month)]
  simp only [Option.some_bind]
  rw [expectChar_cons]
  simp only [Option.some_bind]
  rw [chkDigits_append (padNum_length hd) (padNum_digits 2 dt.day)]
  simp only [Option.some_bind]
  rw [expectChar_cons]
  simp only [Option.some_bind]
  rw [chkDigits_append (padNum_length hh) (padNum_digits 2 dt.hour)]
  simp only [Option.some_bind]
  rw [expectChar_cons]
  simp only [Option.some_bind]
  rw [chkDigits_append (padNum_length hmi) (padNum_digits 2 dt.minute)]
  simp only [Option.some_bind]
  rw [expectChar_cons]
  simp only [Option.some_bind]
  rw [chkDigits_append (padNum_length hse) (padNum_digits 2 dt.second)]
  simp only [Option.some_bind, Option.elim_some]
  by_cases hmic : dt.microsecond = 0
  · simp [hmic, chkTailUTC]
  · simp only [if_neg hmic, List.cons_append, chkTailUTC]
    rw [chkDigits_append (padNum_length hus) (padNum_digits 6 dt.microsecond)]
    simp

/-- Aware datetimes keep their `±HH:MM` offset before the appended `"Z"`, so the
stored string is NOT a well-formed UTC-suffixed timestamp. -/
theorem not_isUTC_of_aware {dt : PyDatetime} (hy : dt.year < 10000)
    (hmo : dt.month < 100) (hd : dt.day < 100) (hh : dt.hour < 100)
    (hmi : dt.minute < 100) (hse : dt.second < 100) (hus : dt.microsecond < 1000000)
    {off : Int} (htz : dt.tzOffset = some off) :
    isUTCSuffixedRFC3339 (pyIsoformat dt ++ "Z") = false := by
  have hdata : (pyIsoformat dt ++ "Z").data = pyIsoformatData dt ++ ['Z'] := rfl
  simp only [isUTCSuffixedRFC3339, hdata, pyIsoformatData, htz,
    List.append_assoc, List.cons_append]
  rw [chkDigits_append (padNum_length hy) (padNum_digits 4 dt.year)]
  simp only [Option.some_bind]
  rw [expectChar_cons]
  simp only [Option.some_bind]
  rw [chkDigits_append (padNum_length hmo) (padNum_digits 2 dt.month)]
  simp only [Option.some_bind]
  rw [expectChar_cons]
  simp only [Option.some_bind]
  rw [chkDigits_append (padNum_length hd) (padNum_digits 2 dt.day)]
  simp only [Option.some_bind]
  rw [expectChar_cons]
  simp only [Option.some_bind]
  rw [chkDigits_append (padNum_length hh) (padNum_digits 2 dt.hour)]
  simp only [Option.some_bind]
  rw [expectChar_cons]
  simp only [Option.some_bind]
  rw [chkDigits_append (padNum_length hmi) (padNum_digits 2 dt.minute)]
  simp only [Option.some_bind]
  rw [expectChar_cons]
  simp only [Option.some_bind]
  rw [chkDigits_append (padNum_length hse) (padNum_digits 2 dt.second)]
  simp only [Option.some_bind, Option.elim_some]
  by_cases hmic : dt.microsecond = 0
  · by_cases hoff : off < 0
    · simp only [hmic, if_pos rfl, if_pos hoff, List.nil_append, List.cons_append,
        chkTailUTC]
      exact decide_eq_false (by simp)
    · simp only [hmic, if_pos rfl, if_neg hoff, List.nil_append, List.cons_append,
        chkTailUTC]
      exact decide_eq_false (by simp)
  · by_cases hoff : off < 0
    · simp only [if_neg hmic, if_pos hoff, List.cons_append, List.append_assoc,
        chkTailUTC]
      rw [chkDigits_append (padNum_length hus) (padNum_digits 6 dt.microsecond)]
      exact decide_eq_false (by simp)
    · simp only [if_neg hmic, if_neg hoff, List.cons_append, List.append_assoc,
        chkTailUTC]
      rw [chkDigits_append (padNum_length hus) (padNum_digits 6 dt.microsecond)]
      exact decide_eq_false (by simp)

/-- C4 (amended): for every date string the parser accepts, ingestion stores the
`isoformat` rendering of the parsed value with a literal `"Z"` appended and performs
NO timezone conversion: a local (naive) timestamp yields a well-formed UTC-suffixed
RFC-3339-like string, but an input carrying an explicit zone designator — a non-UTC
offset included — keeps its `±HH:MM` offset in the output ahead of the appended `"Z"`
and so does NOT yield a well-formed UTC-marked timestamp. -/
theorem c4_date_normalization (s : String) (dt : PyDatetime)
    (h : pyFromIso s = some dt) :
    to_rfc_3339 s = .ok (pyIsoformat dt ++ "Z") ∧
    (dt.tzOffset = none → isUTCSuffixedRFC3339 (pyIsoformat dt ++ "Z") = true) ∧
    (∀ off : Int, dt.tzOffset = some off →
      isUTCSuffixedRFC3339 (pyIsoformat dt ++ "Z") = false) := by
  obtain ⟨hy, hmo, hd, hh, hmi, hse, hus⟩ := pyFromIso_bounds h
  refine ⟨by simp [to_rfc_3339, h], ?_, ?_⟩
  · intro htz
    exact isUTC_of_naive hy hmo hd hh hmi hse hus htz
  · intro off htz
    exact not_isUTC_of_aware hy hmo hd hh hmi hse hus htz

/-- C4 witness at the naive input `2023-02-01T09:30:05`. -/
theorem c4_witness :
    to_rfc_3339 "2023-02-01T09:30:05" =
      .ok (pyIsoformat ⟨2023, 2, 1, 9, 30, 5, 0, none⟩ ++ "Z") ∧
    ((⟨2023, 2, 1, 9, 30, 5, 0, none⟩ : PyDatetime).tzOffset = none →
      isUTCSuffixedRFC3339 (pyIsoformat ⟨2023, 2, 1, 9, 30, 5, 0, none⟩ ++ "Z") = true) ∧
    (∀ off : Int, (⟨2023, 2, 1, 9, 30, 5, 0, none⟩ : PyDatetime).tzOffset = some off →
      isUTCSuffixedRFC3339 (pyIsoformat ⟨2023, 2, 1, 9, 30, 5, 0, none⟩ ++ "Z") = false) :=
  c4_date_normalization "2023-02-01T09:30:05" ⟨2023, 2, 1, 9, 30, 5, 0, none⟩ (by rfl)

/-- C4 counterexample: the zoned input `2023-01-01T12:00:00+05:00` is accepted and
stored as `2023-01-01T12:00:00+05:00Z` — the non-UTC offset survives, followed by a
spurious `Z`, which is not a well-formed UTC-suffixed RFC-3339-like timestamp. -/
theorem c4_counterexample :
    to_rfc_3339 "2023-01-01T12:00:00+05:00" = .ok "2023-01-01T12:00:00+05:00Z" ∧
    isUTCSuffixedRFC3339 "2023-01-01T12:00:00+05:00Z" = false := by
  exact ⟨by rfl, by rfl⟩

end Bloggen
